import Mathlib

/-!
Shallow embedding of the collaborative-editor core (C++ sources under
`src/common/ot/opereation.cpp`, `src/common/ot/undo_redo_manager.h` plus its
implementation file, `include/server/session_handler.h` and
`include/common/util/config_loader.cpp`), together with theorems settling the
frozen specification claims.

Documents are modelled as `List Char` (the C++ `std::string`), positions and
lengths as `Nat` (the C++ `size_t`; no arithmetic here comes near wrap-around).
-/

namespace Collab

/-- Operation variant: `InsertOperation` and `DeleteOperation` from
`operation.h`.  An insert carries a position and the inserted text; a delete
carries a position, a length and the (possibly still empty) captured deleted
text `deleted_text_`. -/
inductive Operation where
  | insert (position : Nat) (text : List Char)
  | delete (position : Nat) (length : Nat) (deletedText : List Char)
deriving DecidableEq, Repr

/-- Result of `Operation::apply(std::string& document)`: the returned `bool`,
the document after the call (unchanged when `ok = false`), and the operation
after the call (`DeleteOperation::apply` captures the removed substring into
`deleted_text_` via `const_cast` when it was empty). -/
structure ApplyResult where
  ok : Bool
  doc : List Char
  op : Operation
deriving DecidableEq, Repr

/-- `InsertOperation::apply` and `DeleteOperation::apply` from
`opereation.cpp`: an insert fails iff `position_ > document.length()`;
a delete fails iff `position_ + length_ > document.length()`; both return
before mutating on failure.  A successful delete first captures
`document.substr(position_, length_)` when `deleted_text_` is empty, then
erases the range. -/
def Operation.apply : Operation → List Char → ApplyResult
  | .insert p s, doc =>
    if doc.length < p then ⟨false, doc, .insert p s⟩
    else ⟨true, doc.take p ++ s ++ doc.drop p, .insert p s⟩
  | .delete p nlen s, doc =>
    if doc.length < p + nlen then ⟨false, doc, .delete p nlen s⟩
    else
      ⟨true, doc.take p ++ doc.drop (p + nlen),
       .delete p nlen (if s = [] then (doc.drop p).take nlen else s)⟩

/-- `InsertOperation::transform` and `DeleteOperation::transform` from
`opereation.cpp`, branch for branch.

* insert vs insert: shift right by `|other.text|` when
  `other.position <= self.position` (there is no tie-break of any kind).
* insert vs delete: when the delete starts before the insert, either shift
  left by its length (delete entirely before) or clamp to the delete position.
* delete vs insert: shift right when the insert is at or before our position,
  otherwise grow the length when the insert lands inside the deleted range.
* delete vs delete: the five interval cases, in the order the C++ tests them;
  the final fallthrough is `clone()`. -/
def Operation.transform : Operation → Operation → Operation
  | .insert p s, .insert q t =>
    if q ≤ p then .insert (p + t.length) s else .insert p s
  | .insert p s, .delete q m _ =>
    if q < p then
      (if q + m ≤ p then .insert (p - m) s else .insert q s)
    else .insert p s
  | .delete p nlen s, .insert q t =>
    if q ≤ p then .delete (p + t.length) nlen s
    else if q < p + nlen then .delete p (nlen + t.length) s
    else .delete p nlen s
  | .delete a nlen s, .delete b m _ =>
    if b + m ≤ a then .delete (a - m) nlen s
    else if b ≤ a ∧ a + nlen ≤ b + m then .delete b 0 []
    else if b ≤ a ∧ b + m < a + nlen then
      .delete b ((a + nlen) - (b + m))
        (if (a + nlen) - (b + m) ≤ s.length
         then s.drop (s.length - ((a + nlen) - (b + m))) else [])
    else if a < b ∧ b < a + nlen ∧ a + nlen ≤ b + m then
      .delete a (b - a) (if b - a ≤ s.length then s.take (b - a) else [])
    else if a < b ∧ b + m < a + nlen then
      .delete a (nlen - m)
        (if nlen ≤ s.length then s.take (b - a) ++ s.drop ((b + m) - a) else [])
    else .delete a nlen s

/-- `InsertOperation::inverse` and `DeleteOperation::inverse` from
`opereation.cpp`.  Inverting a delete whose `deleted_text_` is empty throws
`std::runtime_error`; the throw is modelled as `none`. -/
def Operation.inverse : Operation → Option Operation
  | .insert p s => some (.delete p s.length s)
  | .delete p _ s => if s = [] then none else some (.insert p s)

/-- The C++ `transform` returns an `OperationPtr`; every code path of the
implementation returns a freshly allocated operation, never `nullptr`, which
the embedding records by always producing `some`. -/
def Operation.transformPtr (self other : Operation) : Option Operation :=
  some (self.transform other)

/-- `OperationSource` from `operation.h`. -/
inductive OperationSource where
  | LOCAL
  | REMOTE
  | LOCAL_UNDO
  | LOCAL_REDO
  | SYSTEM
deriving DecidableEq, Repr

/-- `UndoRedoManager` state from `undo_redo_manager.h`: the two `std::deque`
stacks (`back` of a deque, i.e. the last list element, is the most recent
entry) and `max_history_size_`. -/
structure UndoRedoManager where
  undoStack : List Operation
  redoStack : List Operation
  maxHistorySize : Nat
deriving DecidableEq, Repr

/-- Default of the constructor argument
`UndoRedoManager(size_t max_history_size = 100)` in `undo_redo_manager.h`. -/
def UndoRedoManager.defaultMaxHistorySize : Nat := 100

/-- A freshly constructed `UndoRedoManager` with both stacks empty. -/
def UndoRedoManager.new (maxHistorySize : Nat) : UndoRedoManager :=
  ⟨[], [], maxHistorySize⟩

/-- `UndoRedoManager::trimUndoStack`: pop from the front (oldest end) while
the undo stack exceeds `max_history_size_`. -/
def trimUndoStack (maxSize : Nat) (stack : List Operation) : List Operation :=
  if maxSize < stack.length then trimUndoStack maxSize (stack.drop 1) else stack
termination_by stack.length
decreasing_by simp only [List.length_drop]; omega

/-- `UndoRedoManager::addOperation`: non-`LOCAL` operations are ignored;
otherwise the redo stack is cleared, a clone is pushed onto the back of the
undo stack and the stack is trimmed. -/
def UndoRedoManager.addOperation (m : UndoRedoManager) (op : Operation)
    (source : OperationSource) : UndoRedoManager :=
  if source = .LOCAL then
    { m with
      redoStack := []
      undoStack := trimUndoStack m.maxHistorySize (m.undoStack ++ [op]) }
  else m

/-- Fold a sequence of `addOperation` calls over a manager. -/
def UndoRedoManager.recordAll (m : UndoRedoManager)
    (ops : List (Operation × OperationSource)) : UndoRedoManager :=
  ops.foldl (fun acc p => acc.addOperation p.1 p.2) m

/-- `UndoRedoManager::undo(std::string& document)`.  The C++ pops the most
recent operation, builds its inverse (which throws `std::runtime_error` for a
delete without captured text — modelled as `Except.error ()`; the exception
propagates out of `undo` after the entry was already popped), applies the
inverse to the document, and on apply failure pushes the entry back and
returns `nullopt`; on success the popped entry moves to the redo stack and the
applied inverse is returned. -/
def UndoRedoManager.undo (m : UndoRedoManager) (document : List Char) :
    Except Unit (Option Operation × List Char × UndoRedoManager) :=
  match m.undoStack.getLast? with
  | none => .ok (none, document, m)
  | some op =>
    match op.inverse with
    | none => .error ()
    | some inv =>
      let r := inv.apply document
      if r.ok then
        .ok (some r.op, r.doc,
          { m with undoStack := m.undoStack.dropLast
                   redoStack := m.redoStack ++ [op] })
      else
        .ok (none, document, m)

/-- The loop body of `UndoRedoManager::transformHistory` over one stack:
replace every entry by `entry->transform(op)`, signalling `none` as soon as a
transform returns a null pointer. -/
def transformStack (stack : List Operation) (r : Operation) :
    Option (List Operation) :=
  match stack with
  | [] => some []
  | o :: rest =>
    match o.transformPtr r with
    | none => none
    | some o2 =>
      match transformStack rest r with
      | none => none
      | some l => some (o2 :: l)

/-- `UndoRedoManager::transformHistory`: transform every entry of both stacks
against the remote operation; if any transform comes back null, `clear()` both
stacks and return immediately. -/
def UndoRedoManager.transformHistory (m : UndoRedoManager) (r : Operation) :
    UndoRedoManager :=
  match transformStack m.undoStack r with
  | none => { m with undoStack := [], redoStack := [] }
  | some u =>
    match transformStack m.redoStack r with
    | none => { m with undoStack := [], redoStack := [] }
    | some d => { m with undoStack := u, redoStack := d }

/-- `UserSession::State` from `session_handler.h`. -/
inductive SessionState where
  | CONNECTING
  | AUTHENTICATING
  | AUTHENTICATED
  | DISCONNECTED
deriving DecidableEq, Repr

/-- The observable fields of `UserSession`. -/
structure UserSession where
  id : String
  username : String
  state : SessionState
deriving DecidableEq, Repr

/-- `map[key] = value` on an association list: assign in place when the key is
present, append otherwise (the observable behaviour of
`std::unordered_map::operator[]` followed by assignment). -/
def setAssoc {κ α : Type} [BEq κ] (k : κ) (v : α) :
    List (κ × α) → List (κ × α)
  | [] => [(k, v)]
  | (k', v') :: rest =>
    if k' == k then (k, v) :: rest else (k', v') :: setAssoc k v rest

/-- `map.erase(key)` on an association list: drop the binding of `k`. -/
def eraseAssoc {κ α : Type} [BEq κ] (k : κ) :
    List (κ × α) → List (κ × α)
  | [] => []
  | (k', v') :: rest =>
    if k' == k then rest else (k', v') :: eraseAssoc k rest

/-- `SessionHandler` state from `session_handler.h`: the `sessions_` map and
the `username_to_session_` map (sockets are not modelled). -/
structure SessionHandler where
  sessions : List (String × UserSession)
  usernameToSession : List (String × String)
deriving DecidableEq, Repr

/-- The empty registry built by the `SessionHandler` constructor. -/
def SessionHandler.new : SessionHandler := ⟨[], []⟩

/-- `SessionHandler::createSession`: store a fresh session in `CONNECTING`
state with an empty username under the generated id (the random UUID is a
parameter here). -/
def SessionHandler.createSession (h : SessionHandler) (sessionId : String) :
    SessionHandler :=
  { h with sessions :=
      setAssoc sessionId ⟨sessionId, "", .CONNECTING⟩ h.sessions }

/-- `SessionHandler::authenticateSession`: look the session up by id; when
found, set its username, move it to `AUTHENTICATED`, and overwrite
`username_to_session_[username]` — no availability check of any kind — and
return `true`; when the id is unknown return `false`. -/
def SessionHandler.authenticateSession (h : SessionHandler)
    (sessionId username : String) : Bool × SessionHandler :=
  match h.sessions.lookup sessionId with
  | some s =>
    (true,
     { sessions :=
         setAssoc sessionId { s with username := username,
                                     state := .AUTHENTICATED } h.sessions
       usernameToSession := setAssoc username sessionId h.usernameToSession })
  | none => (false, h)

/-- `SessionHandler::closeSession`: when the session exists, release its
username binding only if it was `AUTHENTICATED`, mark it `DISCONNECTED` and
remove it from the registry. -/
def SessionHandler.closeSession (h : SessionHandler) (sessionId : String) :
    Bool × SessionHandler :=
  match h.sessions.lookup sessionId with
  | none => (false, h)
  | some s =>
    (true,
     { sessions := eraseAssoc sessionId h.sessions
       usernameToSession :=
         if s.state = .AUTHENTICATED
         then eraseAssoc s.username h.usernameToSession
         else h.usernameToSession })

/-- `SessionHandler::isUsernameAvailable`: a username is available iff it has
no entry in `username_to_session_`. -/
def SessionHandler.isUsernameAvailable (h : SessionHandler)
    (username : String) : Bool :=
  (h.usernameToSession.lookup username).isNone

/-- The whitespace class of `std::isspace` in the default locale (also the
`\s` class of `std::regex`). -/
def isSpaceChar (c : Char) : Bool :=
  c == ' ' || c == '\t' || c == '\n' || c == '\x0b' || c == '\x0c' || c == '\r'

/-- `[A-Za-z0-9_]`, the continuation class of a config key. -/
def isKeyChar (c : Char) : Bool :=
  c.isAlpha || c.isDigit || c == '_'

/-- `ConfigLoader::trim`: drop whitespace from both ends. -/
def trimStr (s : List Char) : List Char :=
  ((s.dropWhile isSpaceChar).reverse.dropWhile isSpaceChar).reverse

/-- The double-quote character. -/
def dquoteChar : Char := Char.ofNat 34

/-- The single-quote character. -/
def squoteChar : Char := Char.ofNat 39

/-- The match of `std::regex_match(line, "^\s*([A-Za-z][A-Za-z0-9_]*)\s*=\s*(.*)$")`
in `ConfigLoader::parseLine`, returning the two capture groups.  The key
pattern cannot backtrack (a shorter key leaves a key character where `\s*=`
expects `=`), so greedy scanning is exact; `.` does not match the line
terminators `\n`/`\r`, so a match fails when one survives past the greedy
`\s*` that follows `=`. -/
def parseLineMatch (line : List Char) : Option (List Char × List Char) :=
  match line.dropWhile isSpaceChar with
  | [] => none
  | c :: cs =>
    if c.isAlpha then
      let key := c :: cs.takeWhile isKeyChar
      match (cs.dropWhile isKeyChar).dropWhile isSpaceChar with
      | '=' :: rest =>
        let value := rest.dropWhile isSpaceChar
        if value.any (fun ch => ch == '\n' || ch == '\r') then none
        else some (key, value)
      | _ => none
    else none

/-- `ConfigLoader::parseLine` acting on the `configValues_` map.  After the
regex match the value is trimmed; the C++ then evaluates `value.front()` and
`value.back()` unconditionally — calling `front()`/`back()` on an empty
string is out of bounds (undefined behaviour), modelled as `Except.error ()`.
The quote stripping `value.substr(1, value.length() - 2)` is reproduced with
the same clamping `substr` performs. -/
def ConfigLoader.parseLine (cfg : List (List Char × List Char))
    (line : List Char) : Except Unit (List (List Char × List Char)) :=
  match parseLineMatch line with
  | none => .ok cfg
  | some (key, rawValue) =>
    match trimStr rawValue with
    | [] => .error ()
    | c :: rest =>
      let value := c :: rest
      let lastc := value.getLastD c
      if (c = dquoteChar ∧ lastc = dquoteChar) ∨
         (c = squoteChar ∧ lastc = squoteChar) then
        .ok (setAssoc key ((value.drop 1).take (value.length - 2)) cfg)
      else
        .ok (setAssoc key value cfg)

/-! ## Helper lemmas -/

/-- `trimUndoStack` drops exactly the oldest surplus entries. -/
theorem trimUndoStack_eq_drop (maxSize : Nat) (stack : List Operation) :
    trimUndoStack maxSize stack = stack.drop (stack.length - maxSize) := by
  induction stack with
  | nil => rw [trimUndoStack]; simp
  | cons x rest ih =>
    rw [trimUndoStack]
    by_cases h : maxSize < (x :: rest).length
    · rw [if_pos h]
      simp only [List.drop_succ_cons, List.drop_zero]
      rw [ih]
      have hlen : (x :: rest).length - maxSize = (rest.length - maxSize) + 1 := by
        simp only [List.length_cons] at h ⊢; omega
      rw [hlen, List.drop_succ_cons]
    · rw [if_neg h]
      have : (x :: rest).length - maxSize = 0 := by
        simp only [List.length_cons] at h ⊢; omega
      rw [this, List.drop_zero]

/-- The trimmed undo stack never exceeds the size bound. -/
theorem length_trimUndoStack_le (maxSize : Nat) (stack : List Operation) :
    (trimUndoStack maxSize stack).length ≤ maxSize := by
  rw [trimUndoStack_eq_drop, List.length_drop]; omega

/-- `addOperation` preserves the bound on the undo stack and the configured
maximum. -/
theorem recordAll_bound_invariant (ops : List (Operation × OperationSource)) :
    ∀ m : UndoRedoManager, m.undoStack.length ≤ m.maxHistorySize →
      (m.recordAll ops).undoStack.length ≤ m.maxHistorySize ∧
      (m.recordAll ops).maxHistorySize = m.maxHistorySize := by
  induction ops with
  | nil => intro m hm; exact ⟨hm, rfl⟩
  | cons hd tl ih =>
    intro m hm
    have hstep : (m.addOperation hd.1 hd.2).undoStack.length ≤ m.maxHistorySize ∧
        (m.addOperation hd.1 hd.2).maxHistorySize = m.maxHistorySize := by
      unfold UndoRedoManager.addOperation
      split
      · exact ⟨length_trimUndoStack_le _ _, rfl⟩
      · exact ⟨hm, rfl⟩
    have := ih (m.addOperation hd.1 hd.2) (hstep.2 ▸ hstep.1)
    simpa [UndoRedoManager.recordAll, hstep.2] using this

/-- Every transform in this code base returns a non-null pointer, so the stack
transformation loop succeeds and is a plain map. -/
theorem transformStack_eq_map (stack : List Operation) (r : Operation) :
    transformStack stack r = some (stack.map (fun o => o.transform r)) := by
  induction stack with
  | nil => rfl
  | cons o rest ih => simp [transformStack, Operation.transformPtr, ih]

/-! ## Claim theorems -/

/-- C1: the claimed convergence `(A ∘ B')(T) = (B ∘ A')(T)` fails on the code:
with `T = "ab"`, `A = Insert(1, "X")`, `B = Insert(1, "Y")` (both of which
apply to `T`), applying `A` then `B.transform(A)` yields `"aXYb"` while
applying `B` then `A.transform(B)` yields `"aYXb"` — the insert-vs-insert
transform shifts on `other.position <= self.position` for both operands, so
equal-position inserts diverge. -/
theorem insert_insert_equal_position_diverges :
    ((Operation.insert 1 ['X']).apply ['a', 'b']).ok = true
  ∧ ((Operation.insert 1 ['Y']).apply ['a', 'b']).ok = true
  ∧ (((Operation.insert 1 ['Y']).transform (Operation.insert 1 ['X'])).apply
      ((Operation.insert 1 ['X']).apply ['a', 'b']).doc).doc = ['a', 'X', 'Y', 'b']
  ∧ (((Operation.insert 1 ['X']).transform (Operation.insert 1 ['Y'])).apply
      ((Operation.insert 1 ['Y']).apply ['a', 'b']).doc).doc = ['a', 'Y', 'X', 'b']
  ∧ (['a', 'X', 'Y', 'b'] : List Char) ≠ ['a', 'Y', 'X', 'b'] := by decide

/-- C2 (counterexample): the claim predicts that two concurrent inserts at
position 1 on `"ab"` converge to `"aXYb"`; on the side that applies
`Insert(1, "Y")` first, the code produces `"aYXb"` instead. -/
theorem insert_insert_tiebreak_counterexample :
    (((Operation.insert 1 ['X']).transform (Operation.insert 1 ['Y'])).apply
      ((Operation.insert 1 ['Y']).apply ['a', 'b']).doc).doc = ['a', 'Y', 'X', 'b']
  ∧ (['a', 'Y', 'X', 'b'] : List Char) ≠ ['a', 'X', 'Y', 'b'] := by decide

/-- C2 (amended): `self.transform(other)` for two inserts shifts `self` right
by `|other.text|` exactly when `other.position ≤ self.position` — there is no
author or operation-id tie-break — and consequently the two application
orders of equal-position inserts produce `"aXYb"` and `"aYXb"`. -/
theorem insert_insert_transform_shift_iff_le :
    (∀ (p q : Nat) (s t : List Char),
      (Operation.insert p s).transform (Operation.insert q t)
        = if q ≤ p then Operation.insert (p + t.length) s
          else Operation.insert p s)
  ∧ (Operation.insert 1 ['Y']).transform (Operation.insert 1 ['X'])
      = Operation.insert 2 ['Y']
  ∧ (Operation.insert 1 ['X']).transform (Operation.insert 1 ['Y'])
      = Operation.insert 2 ['X']
  ∧ (((Operation.insert 1 ['Y']).transform (Operation.insert 1 ['X'])).apply
      ((Operation.insert 1 ['X']).apply ['a', 'b']).doc).doc = ['a', 'X', 'Y', 'b']
  ∧ (((Operation.insert 1 ['X']).transform (Operation.insert 1 ['Y'])).apply
      ((Operation.insert 1 ['Y']).apply ['a', 'b']).doc).doc = ['a', 'Y', 'X', 'b'] :=
  ⟨fun _ _ _ _ => rfl, by decide, by decide, by decide, by decide⟩

/-- C5 (counterexample): `transformHistory` does not drop an entry whose
transform is a fully-canceled delete.  With the undo stack
`[Delete(1, 2, "bc")]` and remote `Delete(0, 4)`, the entry becomes the no-op
`Delete(0, 0, "")` and stays on the stack instead of being dropped. -/
theorem transformHistory_keeps_canceled_delete :
    (UndoRedoManager.transformHistory
        ⟨[Operation.delete 1 2 ['b', 'c']], [], 100⟩
        (Operation.delete 0 4 [])).undoStack = [Operation.delete 0 0 []]
  ∧ [Operation.delete 0 0 []] ≠ ([] : List Operation) := by decide

/-- C5 (amended): `transformHistory(r)` replaces every operation of both
stacks by its transform against `r` and never drops an individual entry: a
delete fully canceled by `r` remains as a zero-length delete (the code would
clear the entire history if a transform ever returned null, but no transform
in this code base does). -/
theorem transformHistory_maps_transform (m : UndoRedoManager) (r : Operation) :
    (m.transformHistory r).undoStack = m.undoStack.map (fun o => o.transform r)
  ∧ (m.transformHistory r).redoStack = m.redoStack.map (fun o => o.transform r)
  ∧ (m.transformHistory r).undoStack.length = m.undoStack.length
  ∧ (m.transformHistory r).redoStack.length = m.redoStack.length := by
  have hu := transformStack_eq_map m.undoStack r
  have hr := transformStack_eq_map m.redoStack r
  refine ⟨?_, ?_, ?_, ?_⟩ <;>
    simp [UndoRedoManager.transformHistory, hu, hr]

/-- C9 (counterexample): the default history bound of
`UndoRedoManager(size_t max_history_size = 100)` is 100, not the claimed
1000. -/
theorem default_max_history_counterexample :
    UndoRedoManager.defaultMaxHistorySize = 100
  ∧ UndoRedoManager.defaultMaxHistorySize ≠ 1000 := by decide

/-- C9 (amended): the undo stack is bounded by `max_history_size_` whose
default is 100: after any sequence of recorded operations a fresh manager's
undo stack holds at most `max_history_size_` entries, and trimming drops
entries from the oldest (front) end. -/
theorem undo_stack_bounded_drop_oldest :
    (∀ (maxH : Nat) (ops : List (Operation × OperationSource)),
      ((UndoRedoManager.new maxH).recordAll ops).undoStack.length ≤ maxH)
  ∧ (∀ (maxSize : Nat) (stack : List Operation),
      trimUndoStack maxSize stack = stack.drop (stack.length - maxSize))
  ∧ UndoRedoManager.defaultMaxHistorySize = 100 :=
  ⟨fun maxH ops =>
    (recordAll_bound_invariant ops (UndoRedoManager.new maxH)
      (Nat.zero_le maxH)).1,
   trimUndoStack_eq_drop, rfl⟩

/-- C10: on the line `"KEY="` (value empty after trimming), `parseLine`
evaluates `value.front()` and `value.back()` on the empty string — an
out-of-bounds access —, contrary to the claim that the empty value is stored
without such a read.  A line with a non-empty value parses normally. -/
theorem parseLine_empty_value_out_of_bounds :
    ConfigLoader.parseLine [] ['K', 'E', 'Y', '='] = Except.error ()
  ∧ ConfigLoader.parseLine [] ['K', 'E', 'Y', '=', ' '] = Except.error ()
  ∧ ConfigLoader.parseLine [] ['K', 'E', 'Y', '=', 'v']
      = Except.ok [(['K', 'E', 'Y'], ['v'])] :=
  ⟨rfl, rfl, rfl⟩

/-- C3: `DeleteOperation::transform` against another delete follows the
five-case interval geometry of the spec (`self = [a, a+n)`, `other =
[b, b+m)`, captured text of the canonical length `n`): (1) disjoint before —
shift left by `m`; (2) other covers self — collapse to `Delete(b, 0)`;
(3) overlap at head — position `b`, length `(a+n)-(b+m)`, prefix of the
captured text trimmed by `(b+m)-a`; (4) overlap at tail — position `a`,
length `b-a`, captured text truncated to its first `b-a` characters;
(5) other strictly inside — position `a`, length `n-m`, captured text spliced
around the removed middle; otherwise self is returned unchanged. -/
theorem delete_delete_transform_cases
    (a nlen b m : Nat) (s t : List Char) (hs : s.length = nlen) :
    (b + m ≤ a →
      (Operation.delete a nlen s).transform (Operation.delete b m t)
        = Operation.delete (a - m) nlen s)
  ∧ (b ≤ a → a + nlen ≤ b + m →
      (Operation.delete a nlen s).transform (Operation.delete b m t)
        = Operation.delete b 0 [])
  ∧ (b ≤ a → a < b + m → b + m < a + nlen →
      (Operation.delete a nlen s).transform (Operation.delete b m t)
        = Operation.delete b ((a + nlen) - (b + m)) (s.drop ((b + m) - a)))
  ∧ (a < b → b < a + nlen → a + nlen ≤ b + m →
      (Operation.delete a nlen s).transform (Operation.delete b m t)
        = Operation.delete a (b - a) (s.take (b - a)))
  ∧ (a < b → b + m < a + nlen →
      (Operation.delete a nlen s).transform (Operation.delete b m t)
        = Operation.delete a (nlen - m) (s.take (b - a) ++ s.drop ((b + m) - a)))
  ∧ (a < b → a + nlen ≤ b →
      (Operation.delete a nlen s).transform (Operation.delete b m t)
        = Operation.delete a nlen s) := by
  subst hs
  refine ⟨?_, ?_, ?_, ?_, ?_, ?_⟩
  · intro h1
    simp only [Operation.transform]
    rw [if_pos h1]
  · intro h1 h2
    simp only [Operation.transform]
    by_cases hc : b + m ≤ a
    · rw [if_pos hc]
      have hn : s.length = 0 := by omega
      have ha : a - m = b := by omega
      have hs0 : s = [] := List.eq_nil_of_length_eq_zero hn
      rw [ha, hn, hs0]
    · rw [if_neg hc, if_pos ⟨h1, h2⟩]
  · intro h1 h2 h3
    simp only [Operation.transform]
    rw [if_neg (by omega), if_neg (by omega), if_pos ⟨h1, h3⟩,
      if_pos (by omega)]
    have : s.length - ((a + s.length) - (b + m)) = (b + m) - a := by omega
    rw [this]
  · intro h1 h2 h3
    simp only [Operation.transform]
    rw [if_neg (by omega), if_neg (by omega), if_neg (by omega),
      if_pos ⟨h1, h2, h3⟩, if_pos (by omega)]
  · intro h1 h2
    simp only [Operation.transform]
    rw [if_neg (by omega), if_neg (by omega), if_neg (by omega),
      if_neg (by omega), if_pos ⟨h1, h2⟩, if_pos (by omega)]
  · intro h1 h2
    simp only [Operation.transform]
    rw [if_neg (by omega), if_neg (by omega), if_neg (by omega),
      if_neg (by omega), if_neg (by omega)]

/-- C3 (witness): overlap-at-head instance — `self = Delete(1, 3, "bcd")`,
`other = Delete(0, 2)` gives `Delete(0, 2, "cd")`. -/
theorem delete_delete_transform_cases_witness :
    (0 : Nat) ≤ 1 ∧ (1 : Nat) < 0 + 2 ∧ (0 + 2 : Nat) < 1 + 3 ∧
    (Operation.delete 1 3 ['b', 'c', 'd']).transform (Operation.delete 0 2 [])
      = Operation.delete 0 2 ['c', 'd'] :=
  ⟨by decide, by decide, by decide,
   (delete_delete_transform_cases 1 3 0 2 ['b', 'c', 'd'] [] rfl).2.2.1
     (by decide) (by decide) (by decide)⟩

/-- C4: `InsertOperation::apply` succeeds iff `position ≤ |text|`,
`DeleteOperation::apply` succeeds iff `position + length ≤ |text|`, a failed
apply leaves the document unchanged, and a successful delete whose
`deleted_text_` was unset captures the removed substring
`text[position, position+length)`. -/
theorem apply_success_iff_bounds (p nlen : Nat) (s T : List Char) :
    (((Operation.insert p s).apply T).ok = true ↔ p ≤ T.length)
  ∧ (((Operation.delete p nlen s).apply T).ok = true ↔ p + nlen ≤ T.length)
  ∧ (((Operation.insert p s).apply T).ok = false →
      ((Operation.insert p s).apply T).doc = T)
  ∧ (((Operation.delete p nlen s).apply T).ok = false →
      ((Operation.delete p nlen s).apply T).doc = T)
  ∧ (p + nlen ≤ T.length →
      ((Operation.delete p nlen []).apply T).op
        = Operation.delete p nlen ((T.drop p).take nlen)) := by
  refine ⟨?_, ?_, ?_, ?_, ?_⟩ <;>
    simp only [Operation.apply] <;> split_ifs with h <;> simp_all

/-- C4 (witness): `Delete(0, 1)` on `"a"` succeeds and captures `"a"`;
`Insert(2, "z")` on `"a"` fails and leaves the text unchanged. -/
theorem apply_success_iff_bounds_witness :
    (0 + 1 : Nat) ≤ (['a'] : List Char).length ∧
    ((Operation.delete 0 1 []).apply ['a']).op = Operation.delete 0 1 ['a'] ∧
    ((Operation.insert 2 ['z']).apply ['a']).ok = false ∧
    ((Operation.insert 2 ['z']).apply ['a']).doc = ['a'] :=
  ⟨by decide,
   (apply_success_iff_bounds 0 1 [] ['a']).2.2.2.2 (by decide),
   by decide,
   (apply_success_iff_bounds 2 0 ['z'] ['a']).2.2.1 (by decide)⟩

/-- C6 (counterexample): with undo stack `[Insert(0, "a"), Delete(0, 1)]`
(top entry a delete whose text was never captured) on document `"x"`, `undo`
propagates the `std::runtime_error` thrown by `inverse()` — it does not drop
the entry and return the inverse of the next valid one, which would have been
`Delete(0, 1, "a")`. -/
theorem undo_uncaptured_delete_counterexample :
    UndoRedoManager.undo
        ⟨[Operation.insert 0 ['a'], Operation.delete 0 1 []], [], 100⟩ ['x']
      = Except.error ()
  ∧ (Except.error () : Except Unit (Option Operation × List Char × UndoRedoManager))
      ≠ Except.ok (some (Operation.delete 0 1 ['a']), [],
          ⟨[], [Operation.insert 0 ['a']], 100⟩) :=
  ⟨rfl, fun h => Except.noConfusion h⟩

/-- C6 (amended): whenever the topmost undo-stack entry is a delete whose
text was never captured, `undo` raises the inversion error (the
`std::runtime_error` from `DeleteOperation::inverse`) instead of silently
skipping to the next valid entry. -/
theorem undo_uncaptured_delete_errors (m : UndoRedoManager)
    (document : List Char) (st : List Operation) (p nlen : Nat)
    (h : m.undoStack = st ++ [Operation.delete p nlen []]) :
    m.undo document = Except.error () := by
  unfold UndoRedoManager.undo
  rw [h, List.getLast?_concat]
  simp [Operation.inverse]

/-- C6 (witness): a one-entry stack holding `Delete(2, 3)` without captured
text makes `undo` error out. -/
theorem undo_uncaptured_delete_errors_witness :
    UndoRedoManager.undo ⟨[Operation.delete 2 3 []], [], 100⟩ ['x']
      = Except.error () :=
  undo_uncaptured_delete_errors ⟨[Operation.delete 2 3 []], [], 100⟩
    ['x'] [] 2 3 rfl

/-- Looking up the key just assigned by `setAssoc` yields the assigned
value. -/
theorem lookup_setAssoc_self {κ α : Type} [BEq κ] [LawfulBEq κ]
    (k : κ) (v : α) (l : List (κ × α)) :
    (setAssoc k v l).lookup k = some v := by
  induction l with
  | nil => simp [setAssoc]
  | cons kv rest ih =>
    obtain ⟨k', v'⟩ := kv
    by_cases h : k' = k
    · subst h; simp [setAssoc]
    · have hbe : (k' == k) = false := beq_eq_false_iff_ne.mpr h
      have hbe2 : (k == k') = false := beq_eq_false_iff_ne.mpr (Ne.symm h)
      simp [setAssoc, hbe, hbe2, List.lookup, ih]

/-- C7 (counterexample): two sessions can authenticate under the same
username.  After `createSession("s1")`, `createSession("s2")`,
`authenticateSession("s1", "u")`, the call
`authenticateSession("s2", "u")` succeeds even though `"u"` is already bound
(`isUsernameAvailable "u" = false`), leaving two distinct non-Disconnected
sessions that both hold username `"u"`. -/
theorem duplicate_username_counterexample :
    let h3 := (((SessionHandler.new.createSession "s1").createSession
        "s2").authenticateSession "s1" "u").2
    (h3.isUsernameAvailable "u" = false)
  ∧ ((h3.authenticateSession "s2" "u").1 = true)
  ∧ ((h3.authenticateSession "s2" "u").2.sessions.lookup "s1"
      = some ⟨"s1", "u", SessionState.AUTHENTICATED⟩)
  ∧ ((h3.authenticateSession "s2" "u").2.sessions.lookup "s2"
      = some ⟨"s2", "u", SessionState.AUTHENTICATED⟩)
  ∧ ("s1" : String) ≠ "s2" := by decide

/-- C7 (amended): `authenticateSession` performs no availability check: it
succeeds exactly when the session id exists, unconditionally setting the
session's username and `AUTHENTICATED` state and overwriting the
username-to-session binding; when the id is unknown it returns `false` and
leaves the registry untouched.  Hence a username can be bound to several live
sessions. -/
theorem authenticateSession_unconditional_bind (h : SessionHandler)
    (sessionId username : String) :
    ((h.authenticateSession sessionId username).1 = true
      ↔ (h.sessions.lookup sessionId).isSome)
  ∧ (∀ s, h.sessions.lookup sessionId = some s →
      ((h.authenticateSession sessionId username).2.sessions.lookup sessionId
        = some { s with username := username, state := .AUTHENTICATED })
      ∧ ((h.authenticateSession sessionId username).2.usernameToSession.lookup
          username = some sessionId))
  ∧ (h.sessions.lookup sessionId = none →
      h.authenticateSession sessionId username = (false, h)) := by
  cases hl : h.sessions.lookup sessionId with
  | none => simp [SessionHandler.authenticateSession, hl]
  | some s =>
    refine ⟨by simp [SessionHandler.authenticateSession, hl], ?_, ?_⟩
    · intro s' hs'
      cases hs'
      exact ⟨by simp [SessionHandler.authenticateSession, hl,
               lookup_setAssoc_self],
             by simp [SessionHandler.authenticateSession, hl,
               lookup_setAssoc_self]⟩
    · intro hnone
      cases hnone

/-- C7 (witness): authenticating the freshly created session `"s1"` as
`"u"` succeeds and rebinds it. -/
theorem authenticateSession_unconditional_bind_witness :
    (SessionHandler.new.createSession "s1").sessions.lookup "s1"
      = some ⟨"s1", "", SessionState.CONNECTING⟩
  ∧ ((SessionHandler.new.createSession "s1").authenticateSession "s1"
      "u").2.sessions.lookup "s1"
      = some ⟨"s1", "u", SessionState.AUTHENTICATED⟩ :=
  ⟨by decide,
   ((authenticateSession_unconditional_bind
       (SessionHandler.new.createSession "s1") "s1" "u").2.1
     ⟨"s1", "", SessionState.CONNECTING⟩ (by decide)).1⟩

/-- C8: applying an operation and then its inverse restores the original
text: for an insert with `p ≤ |T|` the round trip always holds, and for a
delete with positive length, `p + n ≤ |T|` and `deleted_text` either unset
(captured on apply) or equal to the removed substring, the round trip holds
through the post-apply operation (the C++ `apply` captures into the same
object that is later inverted).  Moreover `Insert(p, s).inverse() =
Delete(p, |s|, s)` and, for non-empty `s`, `Delete(p, n, s).inverse() =
Insert(p, s)`. -/
theorem apply_inverse_roundtrip (p nlen : Nat) (s T : List Char) :
    (p ≤ T.length →
      ((Operation.insert p s).apply T).ok = true ∧
      ∃ inv, (((Operation.insert p s).apply T).op).inverse = some inv ∧
        (inv.apply ((Operation.insert p s).apply T).doc).ok = true ∧
        (inv.apply ((Operation.insert p s).apply T).doc).doc = T)
  ∧ (0 < nlen → p + nlen ≤ T.length → (s = [] ∨ s = (T.drop p).take nlen) →
      ((Operation.delete p nlen s).apply T).ok = true ∧
      ∃ inv, (((Operation.delete p nlen s).apply T).op).inverse = some inv ∧
        (inv.apply ((Operation.delete p nlen s).apply T).doc).ok = true ∧
        (inv.apply ((Operation.delete p nlen s).apply T).doc).doc = T)
  ∧ (Operation.insert p s).inverse = some (Operation.delete p s.length s)
  ∧ (s ≠ [] → (Operation.delete p nlen s).inverse = some (Operation.insert p s))
    := by
  refine ⟨?_, ?_, rfl, ?_⟩
  · intro hp
    have htp : (T.take p).length = p := by rw [List.length_take]; omega
    have hT1 : (Operation.insert p s).apply T
        = ⟨true, T.take p ++ s ++ T.drop p, Operation.insert p s⟩ := by
      simp only [Operation.apply]
      rw [if_neg (by omega)]
    rw [hT1]
    refine ⟨rfl, Operation.delete p s.length s, rfl, ?_, ?_⟩
    · simp only [Operation.apply]
      rw [if_neg (by
        simp only [List.length_append, htp, List.length_drop]
        omega)]
    · simp only [Operation.apply]
      rw [if_neg (by
        simp only [List.length_append, htp, List.length_drop]
        omega)]
      show (T.take p ++ s ++ T.drop p).take p
          ++ (T.take p ++ s ++ T.drop p).drop (p + s.length) = T
      have h1 : (T.take p ++ s ++ T.drop p).take p = T.take p := by
        rw [List.append_assoc]
        exact List.take_left' htp
      have h2 : (T.take p ++ s ++ T.drop p).drop (p + s.length) = T.drop p :=
        List.drop_left' (by rw [List.length_append, htp])
      rw [h1, h2, List.take_append_drop]
  · intro hn hpn hcap
    have htp : (T.take p).length = p := by rw [List.length_take]; omega
    have hmidlen : ((T.drop p).take nlen).length = nlen := by
      rw [List.length_take, List.length_drop]; omega
    have hmidne : (T.drop p).take nlen ≠ [] := by
      intro he
      rw [he] at hmidlen
      simp only [List.length_nil] at hmidlen
      omega
    have happ : (Operation.delete p nlen s).apply T
        = ⟨true, T.take p ++ T.drop (p + nlen),
           Operation.delete p nlen ((T.drop p).take nlen)⟩ := by
      simp only [Operation.apply]
      rw [if_neg (by omega)]
      rcases hcap with hc | hc <;> subst hc
      · rw [if_pos rfl]
      · rw [if_neg hmidne]
    rw [happ]
    refine ⟨rfl, Operation.insert p ((T.drop p).take nlen), ?_, ?_, ?_⟩
    · simp only [Operation.inverse]
      rw [if_neg hmidne]
    · simp only [Operation.apply]
      rw [if_neg (by
        simp only [List.length_append, htp, List.length_drop]
        omega)]
    · simp only [Operation.apply]
      rw [if_neg (by
        simp only [List.length_append, htp, List.length_drop]
        omega)]
      show (T.take p ++ T.drop (p + nlen)).take p
          ++ (T.drop p).take nlen
          ++ (T.take p ++ T.drop (p + nlen)).drop p = T
      have h1 : (T.take p ++ T.drop (p + nlen)).take p = T.take p :=
        List.take_left' htp
      have h2 : (T.take p ++ T.drop (p + nlen)).drop p = T.drop (p + nlen) :=
        List.drop_left' htp
      rw [h1, h2, List.append_assoc, ← List.drop_drop,
        List.take_append_drop, List.take_append_drop]
  · intro hs
    simp only [Operation.inverse]
    rw [if_neg hs]

/-- C8 (witness): deleting `"bc"` from `"abcd"` (text captured on apply) and
applying the inverse restores `"abcd"`. -/
theorem apply_inverse_roundtrip_witness :
    (0 : Nat) < 2 ∧ 1 + 2 ≤ (['a', 'b', 'c', 'd'] : List Char).length ∧
    (((Operation.delete 1 2 []).apply ['a', 'b', 'c', 'd']).ok = true ∧
     ∃ inv,
       (((Operation.delete 1 2 []).apply ['a', 'b', 'c', 'd']).op).inverse
         = some inv ∧
       (inv.apply ((Operation.delete 1 2 []).apply
         ['a', 'b', 'c', 'd']).doc).ok = true ∧
       (inv.apply ((Operation.delete 1 2 []).apply
         ['a', 'b', 'c', 'd']).doc).doc = ['a', 'b', 'c', 'd']) :=
  ⟨by decide, by decide,
   (apply_inverse_roundtrip 1 2 [] ['a', 'b', 'c', 'd']).2.1
     (by decide) (by decide) (Or.inl rfl)⟩

end Collab
